import Mathlib

/-!
A shallow embedding of the `AddRetag` MIR transformation pass
(`src/librustc_mir/transform/add_retag.rs`) together with proofs of its
specified properties: the place-stability classifier `is_stable`, the
pointer-likeness classifier `may_be_reference`, the retag-necessity
predicate `needs_retag`, and the three insertion phases of `run_pass`
(entry retagging, call-return retagging, post-assignment retagging).

Data types of the MIR (places, statements, terminators, blocks, bodies)
are transcribed from the interface the pass consumes; external
collaborators (the type-resolution service, borrow kinds, the
`AllCallEdges` normalization pre-pass) are modelled abstractly, as the
specification describes them.
-/

namespace MirRetag

/-- A projection element of a MIR place: dereference, field access,
array index (by a local), constant index, subslice, or variant downcast. -/
inductive ProjectionElem where
  | deref
  | field (idx : Nat)
  | index (localIdx : Nat)
  | constantIndex (offset : Nat) (minLength : Nat) (fromEnd : Bool)
  | subslice (lo : Nat) (hi : Nat) (fromEnd : Bool)
  | downcast (variantIdx : Nat)
deriving DecidableEq

/-- A MIR place: a base local (by index) plus an ordered projection chain. -/
structure Place where
  base : Nat
  projection : List ProjectionElem
deriving DecidableEq

/-- `Place::from(local)`: the place that is the bare local, no projections. -/
def Place.ofLocal (l : Nat) : Place :=
  { base := l, projection := [] }

/-- Static types, as distinguished by the patterns matched in
`may_be_reference`.  Only the head constructor matters to the pass, except
for ADTs, where `is_box` records the result of the external `Ty::is_box`
query.  The constructors `foreign`, `dynamic`, `closure`, `param`, `error`
stand for the kinds reaching the conservative fallback arm. -/
inductive Ty where
  | bool
  | char
  | float
  | int
  | uint
  | rawPtr
  | fnPtr
  | str
  | fnDef
  | never
  | ref
  | adt (is_box : Bool)
  | array
  | slice
  | tuple
  | foreign
  | dynamic
  | closure
  | param
  | error
deriving DecidableEq

/-- Modelled from the spec: borrow kinds live outside this file; the only
property the pass consults is whether the borrow kind permits a two-phase
activation protocol, so a borrow kind is modelled by that capability bit. -/
structure BorrowKind where
  two_phase : Bool
deriving DecidableEq

/-- `BorrowKind::allows_two_phase_borrow`. -/
def BorrowKind.allows_two_phase_borrow (bk : BorrowKind) : Bool :=
  bk.two_phase

/-- Value expressions (rvalues), as distinguished by the pass:
`Ref(borrow_kind, place)`, `AddressOf(mutability, place)`, and everything
else. -/
inductive Rvalue where
  | ref (borrow_kind : BorrowKind) (place : Place)
  | addressOf (mutability : Bool) (place : Place)
  | other
deriving DecidableEq

/-- The four retag kinds. -/
inductive RetagKind where
  | fnEntry
  | twoPhase
  | raw
  | default
deriving DecidableEq

/-- Statement kinds relevant to the pass: assignments, retag markers, and
everything else. -/
inductive StatementKind where
  | assign (place : Place) (rvalue : Rvalue)
  | retag (kind : RetagKind) (place : Place)
  | other
deriving DecidableEq

/-- A MIR statement: source information (modelled as a span number) plus a
statement kind. -/
structure Statement where
  source_info : Nat
  kind : StatementKind
deriving DecidableEq

/-- Terminator kinds relevant to the pass: `Call` with its optional
destination `(place, successor block)`, `Drop`, `DropAndReplace`, and
everything else. -/
inductive TerminatorKind where
  | call (destination : Option (Place × Nat))
  | drop
  | dropAndReplace
  | other
deriving DecidableEq

/-- A MIR terminator: source information plus a terminator kind. -/
structure Terminator where
  source_info : Nat
  kind : TerminatorKind
deriving DecidableEq

/-- A basic block: an ordered statement list followed by one terminator. -/
structure BasicBlockData where
  statements : List Statement
  terminator : Terminator
deriving DecidableEq

/-- A function body: basic blocks (block 0 is `START_BLOCK`), local
declarations (index 0 the return slot, 1..=arg_count the arguments), the
argument count, and the body span. -/
structure Body where
  basic_blocks : List BasicBlockData
  local_decls : List Ty
  arg_count : Nat
  span : Nat
deriving DecidableEq

/-- The ambient context: the `-Z mir-emit-retag` session flag, and the
projection-typing function of the external type-resolution service. -/
structure Tcx where
  mir_emit_retag : Bool
  projTy : Ty → ProjectionElem → Ty

/-- Determines whether this place is "stable": whether, if we evaluate it
again after the assignment, we can be sure to obtain the same place value.
Transcribed from `is_stable` in the source: a dereference is unstable,
all other projection elements are stable. -/
def is_stable (place : Place) : Bool :=
  place.projection.all fun elem =>
    match elem with
    | ProjectionElem.deref => false
    | ProjectionElem.index _ => true
    | ProjectionElem.field _ => true
    | ProjectionElem.constantIndex _ _ _ => true
    | ProjectionElem.subslice _ _ _ => true
    | ProjectionElem.downcast _ => true

/-- Determine whether this type may be a reference (or box), and thus
needs retagging.  Transcribed arm by arm from `may_be_reference`. -/
def may_be_reference (ty : Ty) : Bool :=
  match ty with
  | Ty.bool
  | Ty.char
  | Ty.float
  | Ty.int
  | Ty.uint
  | Ty.rawPtr
  | Ty.fnPtr
  | Ty.str
  | Ty.fnDef
  | Ty.never => false
  | Ty.ref => true
  | Ty.adt true => true
  | Ty.array | Ty.slice | Ty.tuple | Ty.adt false => false
  | _ => true

/-- Modelled from the spec: the external type-resolution service
(`Place::ty` of the MIR library, not part of this repository's sources).
The base local's declared type is read from `local_decls`; each projection
element is then resolved by the context's projection-typing function. -/
def Place.ty (tcx : Tcx) (local_decls : List Ty) (p : Place) : Ty :=
  p.projection.foldl tcx.projTy (local_decls.getD p.base Ty.error)

/-- The retag-necessity predicate: the closure `needs_retag` of
`run_pass`, `is_stable(place) && may_be_reference(place.ty(...))`. -/
def needs_retag (tcx : Tcx) (local_decls : List Ty) (place : Place) : Bool :=
  is_stable place && may_be_reference (Place.ty tcx local_decls place)

/-- `Vec::insert(n, a)`: insert `a` at index `n`, shifting the suffix. -/
def insertAt : List α → Nat → α → List α
  | xs, 0, a => a :: xs
  | [], _ + 1, a => [a]
  | x :: xs, n + 1, a => x :: insertAt xs n a

/-- Apply `f` to the element at index `i`, leaving the rest unchanged. -/
def modifyIdx (f : α → α) : List α → Nat → List α
  | [], _ => []
  | x :: xs, 0 => f x :: xs
  | x :: xs, n + 1 => x :: modifyIdx f xs n

/-- PART 1 of `run_pass`: retag the arguments at the beginning of the
start block.  Locals are enumerated, the return slot (index 0) skipped,
`arg_count` taken, mapped to bare places, filtered by `needs_retag`; the
resulting `Retag(FnEntry, place)` statements are spliced at position 0 of
`START_BLOCK` (block 0). -/
def part1 (tcx : Tcx) (local_decls : List Ty) (arg_count : Nat) (span : Nat)
    (basic_blocks : List BasicBlockData) : List BasicBlockData :=
  let source_info := span
  let places :=
    ((((local_decls.enum).drop 1).take arg_count).map
        (fun le => Place.ofLocal le.1)).filter
      (fun place => needs_retag tcx local_decls place)
  let retags := places.map fun place =>
    ({ source_info := source_info,
       kind := StatementKind.retag RetagKind.fnEntry place } : Statement)
  modifyIdx (fun bb => { bb with statements := retags ++ bb.statements })
    basic_blocks 0

/-- PART 2 of `run_pass`, the scan: collect the return destinations of
`Call` terminators whose destination place needs a retag, recording the
originating source info, the destination place and the successor block.
`Drop` and `DropAndReplace` are also calls but bind no destination; other
terminators are ignored. -/
def collectReturns (tcx : Tcx) (local_decls : List Ty) :
    List BasicBlockData → List (Nat × Place × Nat)
  | [] => []
  | block_data :: rest =>
    match block_data.terminator.kind with
    | TerminatorKind.call destination =>
      match destination with
      | some destination =>
        if needs_retag tcx local_decls destination.1 then
          (block_data.terminator.source_info, destination.1, destination.2)
            :: collectReturns tcx local_decls rest
        else
          collectReturns tcx local_decls rest
      | none => collectReturns tcx local_decls rest
    | TerminatorKind.drop => collectReturns tcx local_decls rest
    | TerminatorKind.dropAndReplace => collectReturns tcx local_decls rest
    | TerminatorKind.other => collectReturns tcx local_decls rest

/-- PART 2 of `run_pass`, the application: for each collected return,
insert a `Retag(Default, dest_place)` at position 0 of the destination
block. -/
def applyReturns (returns : List (Nat × Place × Nat))
    (basic_blocks : List BasicBlockData) : List BasicBlockData :=
  returns.foldl
    (fun bs r =>
      modifyIdx
        (fun bb =>
          { bb with statements :=
              { source_info := r.1,
                kind := StatementKind.retag RetagKind.default r.2.1 }
                :: bb.statements })
        bs r.2.2)
    basic_blocks

/-- PART 2 of `run_pass`: collect the qualifying call returns, then apply
the insertions (collect-then-apply, as the scan cannot mutate). -/
def part2 (tcx : Tcx) (local_decls : List Ty)
    (basic_blocks : List BasicBlockData) : List BasicBlockData :=
  applyReturns (collectReturns tcx local_decls basic_blocks) basic_blocks

/-- The match of PART 3 deciding whether a statement kind triggers a retag
and with which kind: `Assign(place, AddressOf(..))` yields `(Raw, place)`;
any other assignment whose place needs a retag yields `(TwoPhase, place)`
when the rvalue is a `Ref` whose borrow kind allows a two-phase borrow and
`(Default, place)` otherwise; everything else yields nothing
(the `continue`). -/
def retagKindAndPlace (tcx : Tcx) (local_decls : List Ty)
    (k : StatementKind) : Option (RetagKind × Place) :=
  match k with
  | StatementKind.assign place (Rvalue.addressOf _ _) =>
    some (RetagKind.raw, place)
  | StatementKind.assign place rvalue =>
    if needs_retag tcx local_decls place then
      some
        ((match rvalue with
          | Rvalue.ref borrow_kind _ =>
            if borrow_kind.allows_two_phase_borrow then RetagKind.twoPhase
            else RetagKind.default
          | _ => RetagKind.default),
          place)
    else
      none
  | _ => none

/-- One iteration of PART 3's descending loop body at index `i`: examine
statement `i`; if its kind triggers a retag, insert the retag statement at
index `i + 1` (with the source info of statement `i`); otherwise leave the
list unchanged. -/
def retagStmtAt (tcx : Tcx) (local_decls : List Ty)
    (stmts : List Statement) (i : Nat) : List Statement :=
  match stmts[i]? with
  | none => stmts
  | some stmt =>
    match retagKindAndPlace tcx local_decls stmt.kind with
    | none => stmts
    | some kp =>
      insertAt stmts (i + 1)
        { source_info := stmt.source_info,
          kind := StatementKind.retag kp.1 kp.2 }

/-- PART 3's loop `for i in (0..n).rev()`: process indices
`n - 1, n - 2, ..., 0` in that order. -/
def part3Go (tcx : Tcx) (local_decls : List Ty) :
    List Statement → Nat → List Statement
  | stmts, 0 => stmts
  | stmts, n + 1 => part3Go tcx local_decls (retagStmtAt tcx local_decls stmts n) n

/-- PART 3 on one statement list: run the descending loop over all
original indices. -/
def part3Stmts (tcx : Tcx) (local_decls : List Ty)
    (stmts : List Statement) : List Statement :=
  part3Go tcx local_decls stmts stmts.length

/-- PART 3 on one block: rewrite its statement list; the terminator is
untouched. -/
def part3Block (tcx : Tcx) (local_decls : List Ty)
    (bb : BasicBlockData) : BasicBlockData :=
  { bb with statements := part3Stmts tcx local_decls bb.statements }

/-- PART 3 of `run_pass`: add a retag after each qualifying assignment,
block by block. -/
def part3 (tcx : Tcx) (local_decls : List Ty)
    (basic_blocks : List BasicBlockData) : List BasicBlockData :=
  basic_blocks.map (part3Block tcx local_decls)

/-- The three phases of the enabled pass, in order, over the same body
(the external `AllCallEdges` collaborator has already run). -/
def run_phases (tcx : Tcx) (body : Body) : Body :=
  { body with
    basic_blocks :=
      part3 tcx body.local_decls
        (part2 tcx body.local_decls
          (part1 tcx body.local_decls body.arg_count body.span
            body.basic_blocks)) }

/-- `AddRetag::run_pass`: a no-op unless `-Z mir-emit-retag` is set;
otherwise first the external `AllCallEdges` normalization collaborator
runs (modelled from the spec as an arbitrary body transformation passed in
by the caller, since its code lies outside this repository's sources),
then the three phases. -/
def run_pass (tcx : Tcx) (all_call_edges : Body → Body) (body : Body) : Body :=
  if !tcx.mir_emit_retag then body
  else run_phases tcx (all_call_edges body)

/-- The retag statements PART 3 emits right after a given statement: one
statement when the kind-and-place match fires, none otherwise. -/
def retagsAfter (tcx : Tcx) (local_decls : List Ty)
    (stmt : Statement) : List Statement :=
  match retagKindAndPlace tcx local_decls stmt.kind with
  | none => []
  | some kp =>
    [{ source_info := stmt.source_info,
       kind := StatementKind.retag kp.1 kp.2 }]

/-- Reference form of PART 3 on a statement list: every statement is kept
and immediately followed by the retags it triggers. -/
def part3Spec (tcx : Tcx) (local_decls : List Ty) :
    List Statement → List Statement
  | [] => []
  | s :: rest =>
    s :: (retagsAfter tcx local_decls s ++ part3Spec tcx local_decls rest)

theorem part3Spec_append (tcx : Tcx) (ld : List Ty) (a b : List Statement) :
    part3Spec tcx ld (a ++ b) = part3Spec tcx ld a ++ part3Spec tcx ld b := by
  induction a with
  | nil => simp [part3Spec]
  | cons s rest ih => simp [part3Spec, ih]

theorem insertAt_append (pre l : List α) (n : Nat) (a : α) :
    insertAt (pre ++ l) (pre.length + n) a = pre ++ insertAt l n a := by
  induction pre with
  | nil => simp [insertAt]
  | cons x xs ih =>
    have hn : (x :: xs).length + n = (xs.length + n) + 1 := by
      simp [Nat.add_right_comm]
    rw [hn]
    show x :: insertAt (xs ++ l) (xs.length + n) a = x :: (xs ++ insertAt l n a)
    rw [ih]

theorem retagStmtAt_at_append (tcx : Tcx) (ld : List Ty)
    (pre : List Statement) (s : Statement) (rest : List Statement) :
    retagStmtAt tcx ld (pre ++ s :: rest) pre.length =
      pre ++ s :: (retagsAfter tcx ld s ++ rest) := by
  have hget : (pre ++ s :: rest)[pre.length]? = some s := by
    rw [List.getElem?_append_right (Nat.le_refl _)]
    simp
  cases h : retagKindAndPlace tcx ld s.kind with
  | none => simp [retagStmtAt, retagsAfter, hget, h]
  | some kp =>
    have hins := insertAt_append pre (s :: rest) 1
      ({ source_info := s.source_info,
         kind := StatementKind.retag kp.1 kp.2 } : Statement)
    simp [retagStmtAt, retagsAfter, hget, h, hins, insertAt]

theorem part3Go_append (tcx : Tcx) (ld : List Ty) (pre : List Statement) :
    ∀ post, part3Go tcx ld (pre ++ post) pre.length =
      part3Spec tcx ld pre ++ post := by
  induction pre using List.reverseRecOn with
  | nil =>
    intro post
    simp [part3Go, part3Spec]
  | append_singleton xs s ih =>
    intro post
    have hlen : (xs ++ [s]).length = xs.length + 1 := by simp
    rw [hlen]
    show part3Go tcx ld
        (retagStmtAt tcx ld ((xs ++ [s]) ++ post) xs.length) xs.length = _
    have hassoc : (xs ++ [s]) ++ post = xs ++ s :: post := by simp
    rw [hassoc, retagStmtAt_at_append tcx ld xs s post,
      ih (s :: (retagsAfter tcx ld s ++ post)),
      part3Spec_append]
    simp [part3Spec]

theorem part3Stmts_eq_spec (tcx : Tcx) (ld : List Ty)
    (stmts : List Statement) :
    part3Stmts tcx ld stmts = part3Spec tcx ld stmts := by
  simpa [part3Stmts] using part3Go_append tcx ld stmts []

theorem getElem?_drop_cons {l : List α} {i : Nat} {s : α}
    (h : l[i]? = some s) : l.drop i = s :: l.drop (i + 1) := by
  obtain ⟨hlt, heq⟩ := List.getElem?_eq_some.1 h
  rw [List.drop_eq_getElem_cons hlt, heq]

theorem part3Stmts_split (tcx : Tcx) (ld : List Ty)
    {stmts : List Statement} {i : Nat} {s : Statement}
    (h : stmts[i]? = some s) :
    part3Stmts tcx ld stmts =
      part3Stmts tcx ld (stmts.take i)
        ++ s :: (retagsAfter tcx ld s
            ++ part3Stmts tcx ld (stmts.drop (i + 1))) := by
  have hsplit : stmts = stmts.take i ++ s :: stmts.drop (i + 1) := by
    conv_lhs => rw [← List.take_append_drop i stmts]
    rw [getElem?_drop_cons h]
  rw [part3Stmts_eq_spec, part3Stmts_eq_spec, part3Stmts_eq_spec]
  conv_lhs => rw [hsplit]
  rw [part3Spec_append]
  simp [part3Spec]

theorem length_modifyIdx (f : α → α) (l : List α) (i : Nat) :
    (modifyIdx f l i).length = l.length := by
  induction l generalizing i with
  | nil => rfl
  | cons x xs ih =>
    cases i with
    | zero => simp [modifyIdx]
    | succ n => simp [modifyIdx, ih]

theorem getElem?_modifyIdx_ne (f : α → α) {l : List α} {i j : Nat}
    (h : i ≠ j) : (modifyIdx f l i)[j]? = l[j]? := by
  induction l generalizing i j with
  | nil => rfl
  | cons x xs ih =>
    cases i with
    | zero =>
      cases j with
      | zero => exact absurd rfl h
      | succ m => simp [modifyIdx]
    | succ n =>
      cases j with
      | zero => simp [modifyIdx]
      | succ m =>
        have hnm : n ≠ m := fun he => h (by rw [he])
        simp [modifyIdx, ih hnm]

theorem getElem?_modifyIdx_self (f : α → α) (l : List α) (i : Nat) :
    (modifyIdx f l i)[i]? = Option.map f l[i]? := by
  induction l generalizing i with
  | nil => simp [modifyIdx]
  | cons x xs ih =>
    cases i with
    | zero => simp [modifyIdx]
    | succ n => simp [modifyIdx, ih]

/-- Following the spec's words, the retag kind for a (non-`AddressOf`)
assignment: `TwoPhase` if the value-expression is
`Reference-of(borrow-kind, _)` and that borrow kind permits a two-phase
activation protocol; otherwise `Default`. -/
def specAssignKind : Rvalue → RetagKind
  | Rvalue.ref bk _ =>
    if bk.allows_two_phase_borrow then RetagKind.twoPhase
    else RetagKind.default
  | _ => RetagKind.default

theorem retagKindAndPlace_assign (tcx : Tcx) (ld : List Ty)
    (p : Place) (rv : Rvalue) (h : ∀ m q, rv ≠ Rvalue.addressOf m q) :
    retagKindAndPlace tcx ld (StatementKind.assign p rv) =
      if needs_retag tcx ld p then some (specAssignKind rv, p) else none := by
  cases rv with
  | ref bk q => rfl
  | addressOf m q => exact absurd rfl (h m q)
  | other => rfl

theorem retagKindAndPlace_not_assign (tcx : Tcx) (ld : List Ty)
    (k : StatementKind) (h : ∀ p rv, k ≠ StatementKind.assign p rv) :
    retagKindAndPlace tcx ld k = none := by
  cases k with
  | assign p rv => exact absurd rfl (h p rv)
  | retag kk pp => rfl
  | other => rfl

/-- C5: `is_stable` returns false iff the projection chain contains at
least one dereference element; it returns true for every chain made only
of non-dereference elements, including the empty chain of a bare local. -/
theorem is_stable_iff_no_deref :
    ∀ p : Place,
      (is_stable p = false ↔ ProjectionElem.deref ∈ p.projection) ∧
      ((∀ e ∈ p.projection, e ≠ ProjectionElem.deref) → is_stable p = true) ∧
      (p.projection = [] → is_stable p = true) := by
  intro p
  have key : is_stable p = true ↔
      ∀ e ∈ p.projection, e ≠ ProjectionElem.deref := by
    simp only [is_stable, List.all_eq_true]
    constructor
    · intro h e he heq
      have hv := h e he
      rw [heq] at hv
      simp at hv
    · intro h e he
      cases e with
      | deref => exact absurd rfl (h _ he)
      | field i => rfl
      | index i => rfl
      | constantIndex o m fe => rfl
      | subslice lo hi fe => rfl
      | downcast v => rfl
  have key2 : is_stable p = false ↔
      ¬ ∀ e ∈ p.projection, e ≠ ProjectionElem.deref := by
    rw [← key]
    cases hs : is_stable p <;> simp
  refine ⟨?_, fun h => key.2 h, fun h => key.2 (by simp [h])⟩
  rw [key2]
  push_neg
  constructor
  · rintro ⟨e, he, heq⟩
    rwa [heq] at he
  · intro h
    exact ⟨_, h, rfl⟩

/-- C5 witness: concrete evaluations of the stability classifier through
the claim theorem. -/
theorem is_stable_iff_no_deref_witness :
    is_stable (Place.mk 0 [ProjectionElem.deref]) = false ∧
    is_stable (Place.mk 0
      [ProjectionElem.field 0, ProjectionElem.index 1,
        ProjectionElem.constantIndex 0 1 false,
        ProjectionElem.subslice 0 1 false,
        ProjectionElem.downcast 2]) = true ∧
    is_stable (Place.mk 3 []) = true := by
  refine ⟨?_, ?_, ?_⟩
  · exact (is_stable_iff_no_deref _).1.2 (by decide)
  · exact (is_stable_iff_no_deref _).2.1 (by decide)
  · exact (is_stable_iff_no_deref _).2.2 rfl

/-- C6: the pointer-likeness classifier `may_be_reference` returns false
for the primitive types, true for references and boxes, false for
compound types that are not boxes, and true for every kind reaching the
conservative fallback arm. -/
theorem may_be_reference_classification :
    (may_be_reference Ty.bool = false ∧ may_be_reference Ty.char = false ∧
     may_be_reference Ty.float = false ∧ may_be_reference Ty.int = false ∧
     may_be_reference Ty.uint = false ∧ may_be_reference Ty.rawPtr = false ∧
     may_be_reference Ty.fnPtr = false ∧ may_be_reference Ty.fnDef = false ∧
     may_be_reference Ty.str = false ∧ may_be_reference Ty.never = false) ∧
    may_be_reference Ty.ref = true ∧
    may_be_reference (Ty.adt true) = true ∧
    (may_be_reference Ty.array = false ∧ may_be_reference Ty.slice = false ∧
     may_be_reference Ty.tuple = false ∧
     may_be_reference (Ty.adt false) = false) ∧
    (may_be_reference Ty.foreign = true ∧
     may_be_reference Ty.dynamic = true ∧
     may_be_reference Ty.closure = true ∧
     may_be_reference Ty.param = true ∧
     may_be_reference Ty.error = true) := by
  decide

/-- C6 witness: the classifier applied through the claim theorem at the
box type. -/
theorem may_be_reference_classification_witness :
    may_be_reference (Ty.adt true) = true :=
  may_be_reference_classification.2.2.1

/-- C1: Phase 3, non-`AddressOf` assignments: an `Assign(place, rv)`
statement with `needs_retag(place)` gets exactly one retag inserted
immediately after it, of kind `TwoPhase` when `rv` is a `Ref` whose
borrow kind allows a two-phase borrow and `Default` otherwise; with
`needs_retag(place)` false no retag follows it; non-`Assign` statements
trigger no insertion; and Phase 3 treats each block independently. -/
theorem phase3_assign_retagging (tcx : Tcx) (ld : List Ty)
    (bb : BasicBlockData) :
    (∀ i si p rv,
      bb.statements[i]? = some (Statement.mk si (StatementKind.assign p rv)) →
      (∀ m q, rv ≠ Rvalue.addressOf m q) →
      (part3Block tcx ld bb).statements =
        part3Stmts tcx ld (bb.statements.take i)
          ++ Statement.mk si (StatementKind.assign p rv)
            :: ((if needs_retag tcx ld p then
                  [Statement.mk si
                    (StatementKind.retag (specAssignKind rv) p)]
                else [])
              ++ part3Stmts tcx ld (bb.statements.drop (i + 1)))) ∧
    (∀ i s,
      bb.statements[i]? = some s →
      (∀ p rv, s.kind ≠ StatementKind.assign p rv) →
      (part3Block tcx ld bb).statements =
        part3Stmts tcx ld (bb.statements.take i)
          ++ s :: part3Stmts tcx ld (bb.statements.drop (i + 1))) ∧
    (∀ blocks, part3 tcx ld blocks = List.map (part3Block tcx ld) blocks) := by
  refine ⟨?_, ?_, fun blocks => rfl⟩
  · intro i si p rv hget hna
    have hsplit := part3Stmts_split tcx ld hget
    have hk := retagKindAndPlace_assign tcx ld p rv hna
    have hra : retagsAfter tcx ld
        (Statement.mk si (StatementKind.assign p rv)) =
        if needs_retag tcx ld p then
          [Statement.mk si (StatementKind.retag (specAssignKind rv) p)]
        else [] := by
      by_cases hnr : needs_retag tcx ld p <;>
        simp [retagsAfter, hk, hnr]
    show part3Stmts tcx ld bb.statements = _
    rw [hsplit, hra]
  · intro i s hget hns
    have hsplit := part3Stmts_split tcx ld hget
    have hra : retagsAfter tcx ld s = [] := by
      simp [retagsAfter, retagKindAndPlace_not_assign tcx ld s.kind hns]
    show part3Stmts tcx ld bb.statements = _
    rw [hsplit, hra]
    simp

/-- C4: Phase 3, `AddressOf` assignments: an
`Assign(place, AddressOf(..))` statement gets exactly one
`Retag(Raw, place)` inserted immediately after it, unconditionally,
without consulting `needs_retag`. -/
theorem phase3_addressOf_raw_retag (tcx : Tcx) (ld : List Ty)
    (bb : BasicBlockData) (i si : Nat) (p : Place) (m : Bool) (q : Place)
    (hget : bb.statements[i]? = some (Statement.mk si
      (StatementKind.assign p (Rvalue.addressOf m q)))) :
    (part3Block tcx ld bb).statements =
      part3Stmts tcx ld (bb.statements.take i)
        ++ Statement.mk si (StatementKind.assign p (Rvalue.addressOf m q))
          :: Statement.mk si (StatementKind.retag RetagKind.raw p)
          :: part3Stmts tcx ld (bb.statements.drop (i + 1)) := by
  have hsplit := part3Stmts_split tcx ld hget
  have hra : retagsAfter tcx ld (Statement.mk si
      (StatementKind.assign p (Rvalue.addressOf m q))) =
      [Statement.mk si (StatementKind.retag RetagKind.raw p)] := rfl
  show part3Stmts tcx ld bb.statements = _
  rw [hsplit, hra]
  simp

/-- C10: no cascading retags: Phase 3's output is the original statement
list with, after each original statement, the retags that statement
itself triggers; a `Retag` statement (pre-existing or just inserted)
triggers none, a non-`Assign` statement triggers none, at most one retag
follows each original statement, and every inserted statement is a retag
carrying the source info of its triggering statement. -/
theorem phase3_no_cascading_retags (tcx : Tcx) (ld : List Ty) :
    (∀ stmts, part3Stmts tcx ld stmts = part3Spec tcx ld stmts) ∧
    (∀ s rest, part3Spec tcx ld (s :: rest) =
      s :: (retagsAfter tcx ld s ++ part3Spec tcx ld rest)) ∧
    (∀ si k p, retagsAfter tcx ld
      (Statement.mk si (StatementKind.retag k p)) = []) ∧
    (∀ s, (∀ p rv, s.kind ≠ StatementKind.assign p rv) →
      retagsAfter tcx ld s = []) ∧
    (∀ s, (retagsAfter tcx ld s).length ≤ 1) ∧
    (∀ s t, t ∈ retagsAfter tcx ld s →
      (∃ k p, t.kind = StatementKind.retag k p) ∧
        t.source_info = s.source_info) := by
  refine ⟨part3Stmts_eq_spec tcx ld, fun s rest => rfl, fun si k p => rfl,
    ?_, ?_, ?_⟩
  · intro s hns
    simp [retagsAfter, retagKindAndPlace_not_assign tcx ld s.kind hns]
  · intro s
    unfold retagsAfter
    cases retagKindAndPlace tcx ld s.kind <;> simp
  · intro s t ht
    unfold retagsAfter at ht
    cases h : retagKindAndPlace tcx ld s.kind with
    | none => rw [h] at ht; simp at ht
    | some kp =>
      rw [h] at ht
      simp at ht
      subst ht
      exact ⟨⟨kp.1, kp.2, rfl⟩, rfl⟩

/-- A concrete context for the witnesses: instrumentation enabled, and a
projection-typing function that keeps the base type. -/
def tcxEx : Tcx := { mir_emit_retag := true, projTy := fun t _ => t }

/-- Concrete local declarations for the witnesses: a return slot of
integer type, an argument of reference type, a temporary of integer
type. -/
def ldEx : List Ty := [Ty.int, Ty.ref, Ty.int]

/-- A concrete block holding one assignment of a non-reference rvalue
into the reference-typed local 1. -/
def bbAsgEx : BasicBlockData :=
  BasicBlockData.mk
    [Statement.mk 7 (StatementKind.assign (Place.ofLocal 1) Rvalue.other)]
    (Terminator.mk 0 TerminatorKind.other)

/-- A concrete block holding one `AddressOf` assignment into the
integer-typed local 2 (so `needs_retag` is false there). -/
def bbRawEx : BasicBlockData :=
  BasicBlockData.mk
    [Statement.mk 8 (StatementKind.assign (Place.ofLocal 2)
      (Rvalue.addressOf false (Place.ofLocal 1)))]
    (Terminator.mk 0 TerminatorKind.other)

/-- C1 witness: a qualifying assignment gets exactly one `Default` retag
right after it. -/
theorem phase3_assign_retagging_witness :
    (part3Block tcxEx ldEx bbAsgEx).statements =
      [Statement.mk 7 (StatementKind.assign (Place.ofLocal 1) Rvalue.other),
       Statement.mk 7
         (StatementKind.retag RetagKind.default (Place.ofLocal 1))] := by
  have h := (phase3_assign_retagging tcxEx ldEx bbAsgEx).1 0 7
    (Place.ofLocal 1) Rvalue.other rfl (fun m q hc => Rvalue.noConfusion hc)
  simpa [part3Stmts, part3Go, specAssignKind, bbAsgEx,
    show needs_retag tcxEx ldEx (Place.ofLocal 1) = true from rfl] using h

/-- C4 witness: an `AddressOf` assignment whose destination does not need
a retag still gets the `Raw` retag right after it. -/
theorem phase3_addressOf_raw_retag_witness :
    needs_retag tcxEx ldEx (Place.ofLocal 2) = false ∧
    (part3Block tcxEx ldEx bbRawEx).statements =
      [Statement.mk 8 (StatementKind.assign (Place.ofLocal 2)
          (Rvalue.addressOf false (Place.ofLocal 1))),
       Statement.mk 8
         (StatementKind.retag RetagKind.raw (Place.ofLocal 2))] := by
  refine ⟨rfl, ?_⟩
  have h := phase3_addressOf_raw_retag tcxEx ldEx bbRawEx 0 8
    (Place.ofLocal 2) false (Place.ofLocal 1) rfl
  simpa [part3Stmts, part3Go, bbRawEx] using h

/-- C10 witness: running Phase 3 over a list holding one retag statement
inserts nothing. -/
theorem phase3_no_cascading_retags_witness :
    part3Stmts tcxEx ldEx
      [Statement.mk 3
        (StatementKind.retag RetagKind.default (Place.ofLocal 1))] =
      [Statement.mk 3
        (StatementKind.retag RetagKind.default (Place.ofLocal 1))] := by
  have h := (phase3_no_cascading_retags tcxEx ldEx).1
    [Statement.mk 3
      (StatementKind.retag RetagKind.default (Place.ofLocal 1))]
  rw [h]
  rfl

theorem enumFrom_take_map_fst (l : List α) (n ac : Nat)
    (h : ac ≤ l.length) :
    ((List.enumFrom n l).take ac).map Prod.fst = List.range' n ac := by
  induction ac generalizing l n with
  | zero => simp
  | succ m ih =>
    cases l with
    | nil => simp at h
    | cons t ts =>
      rw [List.enumFrom_cons, List.take_succ_cons, List.map_cons,
        ih ts (n + 1) (by simpa using h), List.range'_succ]

/-- C3: Phase 1 (entry retagging): the locals 1..=arg_count are
considered in increasing order, those whose place needs a retag produce a
`Retag(FnEntry, place)` statement, and these statements land at the very
front of the entry block in argument order; every other block is
untouched. -/
theorem phase1_entry_retagging (tcx : Tcx) (ld : List Ty) (ac sp : Nat)
    (bb0 : BasicBlockData) (rest : List BasicBlockData)
    (h : ac + 1 ≤ ld.length) :
    part1 tcx ld ac sp (bb0 :: rest) =
      BasicBlockData.mk
        ((((List.range' 1 ac).map Place.ofLocal).filter
            (fun place => needs_retag tcx ld place)).map
          (fun place =>
            Statement.mk sp (StatementKind.retag RetagKind.fnEntry place))
          ++ bb0.statements)
        bb0.terminator
      :: rest := by
  have hld : ((((ld.enum).drop 1).take ac).map
      (fun le => Place.ofLocal le.1)) =
      (List.range' 1 ac).map Place.ofLocal := by
    cases ld with
    | nil => simp at h
    | cons t ts =>
      have hts : ac ≤ ts.length := by
        simp only [List.length_cons] at h
        omega
      rw [List.enum_cons]
      simp only [List.drop_succ_cons, List.drop_zero]
      rw [← enumFrom_take_map_fst ts 1 ac hts, List.map_map]
      rfl
  simp only [part1]
  rw [hld]
  rfl

/-- C3 witness: with one reference-typed and one integer-typed argument,
exactly one `FnEntry` retag (for the reference argument) lands at the
front of the entry block. -/
theorem phase1_entry_retagging_witness :
    part1 tcxEx ldEx 2 5 [bbAsgEx] =
      [BasicBlockData.mk
        (Statement.mk 5
          (StatementKind.retag RetagKind.fnEntry (Place.ofLocal 1))
          :: bbAsgEx.statements)
        bbAsgEx.terminator] := by
  have h := phase1_entry_retagging tcxEx ldEx 2 5 bbAsgEx []
    (by decide)
  rw [h]
  rfl

/-- The return tuple a single block contributes to Phase 2's scan, if
any. -/
def returnOf (tcx : Tcx) (ld : List Ty) (bd : BasicBlockData) :
    Option (Nat × Place × Nat) :=
  match bd.terminator.kind with
  | TerminatorKind.call (some d) =>
    if needs_retag tcx ld d.1 then
      some (bd.terminator.source_info, d.1, d.2)
    else none
  | _ => none

theorem collectReturns_eq_filterMap (tcx : Tcx) (ld : List Ty)
    (blocks : List BasicBlockData) :
    collectReturns tcx ld blocks = blocks.filterMap (returnOf tcx ld) := by
  induction blocks with
  | nil => rfl
  | cons bd rest ih =>
    cases hk : bd.terminator.kind with
    | call dest =>
      cases dest with
      | some d =>
        by_cases hnr : needs_retag tcx ld d.1 <;>
          simp [collectReturns, List.filterMap_cons, returnOf, hk, hnr, ih]
      | none => simp [collectReturns, List.filterMap_cons, returnOf, hk, ih]
    | drop => simp [collectReturns, List.filterMap_cons, returnOf, hk, ih]
    | dropAndReplace =>
      simp [collectReturns, List.filterMap_cons, returnOf, hk, ih]
    | other => simp [collectReturns, List.filterMap_cons, returnOf, hk, ih]

theorem mem_collectReturns (tcx : Tcx) (ld : List Ty)
    (blocks : List BasicBlockData) (si : Nat) (p : Place) (sb : Nat) :
    (si, p, sb) ∈ collectReturns tcx ld blocks ↔
      ∃ bd ∈ blocks,
        bd.terminator.source_info = si ∧
        bd.terminator.kind = TerminatorKind.call (some (p, sb)) ∧
        needs_retag tcx ld p = true := by
  rw [collectReturns_eq_filterMap, List.mem_filterMap]
  constructor
  · rintro ⟨bd, hbd, hf⟩
    refine ⟨bd, hbd, ?_⟩
    cases hk : bd.terminator.kind with
    | call dest =>
      cases dest with
      | some d =>
        obtain ⟨dp, db⟩ := d
        by_cases hnr : needs_retag tcx ld dp
        · rw [returnOf, hk] at hf
          simp only [hnr, if_true, Option.some.injEq, Prod.mk.injEq] at hf
          obtain ⟨h1, h2, h3⟩ := hf
          refine ⟨h1, ?_, h2 ▸ hnr⟩
          rw [h2, h3]
        · rw [returnOf, hk] at hf
          simp [hnr] at hf
      | none =>
        rw [returnOf, hk] at hf
        simp [returnOf] at hf
    | drop => rw [returnOf, hk] at hf; simp at hf
    | dropAndReplace => rw [returnOf, hk] at hf; simp at hf
    | other => rw [returnOf, hk] at hf; simp at hf
  · rintro ⟨bd, hbd, hsi, hkind, hnr⟩
    refine ⟨bd, hbd, ?_⟩
    rw [returnOf, hkind]
    simp only [hnr, if_true]
    rw [hsi]

theorem applyReturns_cons (ri : Nat) (rp : Place) (rb : Nat)
    (rs : List (Nat × Place × Nat)) (blocks : List BasicBlockData) :
    applyReturns ((ri, rp, rb) :: rs) blocks =
      applyReturns rs
        (modifyIdx
          (fun bb =>
            BasicBlockData.mk
              (Statement.mk ri (StatementKind.retag RetagKind.default rp)
                :: bb.statements)
              bb.terminator)
          blocks rb) := rfl

theorem applyReturns_getElem?_not_mem (rs : List (Nat × Place × Nat))
    (blocks : List BasicBlockData) (j : Nat)
    (h : j ∉ rs.map (fun r => r.2.2)) :
    (applyReturns rs blocks)[j]? = blocks[j]? := by
  induction rs generalizing blocks with
  | nil => rfl
  | cons r rs ih =>
    obtain ⟨ri, rp, rb⟩ := r
    simp only [List.map_cons, List.mem_cons] at h
    push_neg at h
    rw [applyReturns_cons, ih _ h.2,
      getElem?_modifyIdx_ne _ (fun he => h.1 he.symm)]

theorem applyReturns_getElem?_mem (rs : List (Nat × Place × Nat))
    (blocks : List BasicBlockData) {si : Nat} {p : Place} {sb : Nat}
    {sbb : BasicBlockData}
    (hnd : (rs.map (fun r => r.2.2)).Nodup)
    (hmem : (si, p, sb) ∈ rs)
    (hget : blocks[sb]? = some sbb) :
    (applyReturns rs blocks)[sb]? =
      some (BasicBlockData.mk
        (Statement.mk si (StatementKind.retag RetagKind.default p)
          :: sbb.statements)
        sbb.terminator) := by
  induction rs generalizing blocks with
  | nil => simp at hmem
  | cons r rs ih =>
    obtain ⟨ri, rp, rb⟩ := r
    rw [applyReturns_cons]
    simp only [List.map_cons, List.nodup_cons] at hnd
    rcases List.mem_cons.1 hmem with heq | hmem'
    · injection heq with h1 hrest
      injection hrest with h2 h3
      subst h1
      subst h2
      subst h3
      rw [applyReturns_getElem?_not_mem rs _ sb hnd.1,
        getElem?_modifyIdx_self, hget]
      rfl
    · have hsb : sb ∈ rs.map (fun r => r.2.2) :=
        List.mem_map_of_mem _ hmem'
      have hne : rb ≠ sb := fun he => hnd.1 (he ▸ hsb)
      exact ih _ hnd.2 hmem'
        (by rw [getElem?_modifyIdx_ne _ hne]; exact hget)

/-- C2: Phase 2 (call-return retagging): the scan collects exactly the
tuples of `Call` terminators with a destination needing a retag and only
mutates afterwards; under the normalization precondition (distinct
recorded successors) each recorded successor block gains exactly a
`Retag(Default, place)` as its first statement, and every block that is
not a recorded successor — in particular the successors of calls without
destinations, `Drop`, `DropAndReplace` and all other terminators — is
unchanged. -/
theorem phase2_call_return_retagging (tcx : Tcx) (ld : List Ty)
    (blocks : List BasicBlockData) :
    part2 tcx ld blocks =
      applyReturns (collectReturns tcx ld blocks) blocks ∧
    (∀ si p sb, (si, p, sb) ∈ collectReturns tcx ld blocks ↔
      ∃ bd ∈ blocks,
        bd.terminator.source_info = si ∧
        bd.terminator.kind = TerminatorKind.call (some (p, sb)) ∧
        needs_retag tcx ld p = true) ∧
    (((collectReturns tcx ld blocks).map (fun r => r.2.2)).Nodup →
      ∀ si p sb sbb,
        (si, p, sb) ∈ collectReturns tcx ld blocks →
        blocks[sb]? = some sbb →
        (part2 tcx ld blocks)[sb]? =
          some (BasicBlockData.mk
            (Statement.mk si (StatementKind.retag RetagKind.default p)
              :: sbb.statements)
            sbb.terminator)) ∧
    (∀ j, j ∉ (collectReturns tcx ld blocks).map (fun r => r.2.2) →
      (part2 tcx ld blocks)[j]? = blocks[j]?) := by
  refine ⟨rfl, mem_collectReturns tcx ld blocks, ?_, ?_⟩
  · intro hnd si p sb sbb hmem hget
    exact applyReturns_getElem?_mem _ blocks hnd hmem hget
  · intro j hj
    exact applyReturns_getElem?_not_mem _ blocks j hj

/-- A concrete block ending in a call that stores into the
reference-typed local 1 and continues at block 1. -/
def bbCallEx : BasicBlockData :=
  BasicBlockData.mk []
    (Terminator.mk 5 (TerminatorKind.call (some (Place.ofLocal 1, 1))))

/-- C2 witness: the successor block of a qualifying call begins with the
`Default` retag of the call's destination. -/
theorem phase2_call_return_retagging_witness :
    (part2 tcxEx ldEx [bbCallEx, bbAsgEx])[1]? =
      some (BasicBlockData.mk
        (Statement.mk 5
          (StatementKind.retag RetagKind.default (Place.ofLocal 1))
          :: bbAsgEx.statements)
        bbAsgEx.terminator) := by
  exact (phase2_call_return_retagging tcxEx ldEx [bbCallEx, bbAsgEx]).2.2.1
    (by decide) 5 (Place.ofLocal 1) 1 bbAsgEx (by decide) rfl

/-- C7: when the instrumentation flag is false the pass returns the body
unchanged, whatever the normalization collaborator would do — in
particular the result does not depend on that collaborator at all. -/
theorem run_pass_noop_when_disabled (tcx : Tcx) (f g : Body → Body)
    (body : Body) (h : tcx.mir_emit_retag = false) :
    run_pass tcx f body = body ∧
    run_pass tcx f body = run_pass tcx g body := by
  constructor <;> simp [run_pass, h]

/-- A concrete context with the instrumentation flag off. -/
def tcxOffEx : Tcx := { mir_emit_retag := false, projTy := fun t _ => t }

/-- A concrete body for the engine-level witnesses. -/
def bodyEx : Body := Body.mk [bbAsgEx] ldEx 1 0

/-- C7 witness: with the flag off the pass leaves a concrete body alone,
even under a collaborator that would erase all blocks. -/
theorem run_pass_noop_when_disabled_witness :
    run_pass tcxOffEx (fun _ => Body.mk [] [] 0 0) bodyEx = bodyEx ∧
    run_pass tcxOffEx (fun _ => Body.mk [] [] 0 0) bodyEx =
      run_pass tcxOffEx (fun b => b) bodyEx :=
  run_pass_noop_when_disabled tcxOffEx (fun _ => Body.mk [] [] 0 0)
    (fun b => b) bodyEx rfl

/-- C9: determinism: the engine is a pure function of the context, the
collaborator and the body, so two runs on identical copies of a body
yield identical outputs. -/
theorem run_pass_deterministic (tcx : Tcx) (f : Body → Body)
    (b1 b2 : Body) (h : b1 = b2) :
    run_pass tcx f b1 = run_pass tcx f b2 := by
  rw [h]

/-- C9 witness: two runs on copies of a concrete body agree. -/
theorem run_pass_deterministic_witness :
    run_pass tcxEx (fun b => b) bodyEx =
      run_pass tcxEx (fun b => b) bodyEx :=
  run_pass_deterministic tcxEx (fun b => b) bodyEx bodyEx rfl

/-- The structural-preservation relation: same number of blocks, the
terminator at every index unchanged, and every block's original
statements a sublist (in order) of the new statements. -/
def StructurallyExtends (old new : List BasicBlockData) : Prop :=
  old.length = new.length ∧
  ∀ i : Nat,
    (old[i]?).map BasicBlockData.terminator =
      (new[i]?).map BasicBlockData.terminator ∧
    ∀ ob nb, old[i]? = some ob → new[i]? = some nb →
      ob.statements.Sublist nb.statements

theorem structurallyExtends_rfl (l : List BasicBlockData) :
    StructurallyExtends l l := by
  refine ⟨rfl, fun i => ⟨rfl, ?_⟩⟩
  intro ob nb hob hnb
  rw [hob] at hnb
  injection hnb with hh
  subst hh
  exact List.Sublist.refl _

theorem structurallyExtends_trans {a b c : List BasicBlockData}
    (h1 : StructurallyExtends a b) (h2 : StructurallyExtends b c) :
    StructurallyExtends a c := by
  refine ⟨h1.1.trans h2.1, fun i => ⟨(h1.2 i).1.trans (h2.2 i).1, ?_⟩⟩
  intro ob nb hob hnb
  cases hb : b[i]? with
  | none =>
    have := (h1.2 i).1
    rw [hob, hb] at this
    simp at this
  | some mb =>
    exact ((h1.2 i).2 ob mb hob hb).trans ((h2.2 i).2 mb nb hb hnb)

theorem structurallyExtends_modifyIdx (f : BasicBlockData → BasicBlockData)
    (l : List BasicBlockData) (i : Nat)
    (hterm : ∀ bb, (f bb).terminator = bb.terminator)
    (hstmt : ∀ bb : BasicBlockData, bb.statements.Sublist (f bb).statements) :
    StructurallyExtends l (modifyIdx f l i) := by
  refine ⟨(length_modifyIdx f l i).symm, fun j => ?_⟩
  by_cases hij : i = j
  · subst hij
    rw [getElem?_modifyIdx_self]
    constructor
    · cases hl : l[i]? <;> simp [hterm]
    · intro ob nb hob hnb
      rw [hob] at hnb
      simp only [Option.map_some'] at hnb
      injection hnb with hh
      subst hh
      exact hstmt ob
  · rw [getElem?_modifyIdx_ne f hij]
    refine ⟨rfl, ?_⟩
    intro ob nb hob hnb
    rw [hob] at hnb
    injection hnb with hh
    subst hh
    exact List.Sublist.refl _

theorem structurallyExtends_map (g : BasicBlockData → BasicBlockData)
    (l : List BasicBlockData)
    (hterm : ∀ bb, (g bb).terminator = bb.terminator)
    (hstmt : ∀ bb : BasicBlockData, bb.statements.Sublist (g bb).statements) :
    StructurallyExtends l (l.map g) := by
  refine ⟨(List.length_map l g).symm, fun i => ?_⟩
  rw [List.getElem?_map]
  constructor
  · cases l[i]? <;> simp [hterm]
  · intro ob nb hob hnb
    rw [hob] at hnb
    simp only [Option.map_some'] at hnb
    injection hnb with hh
    subst hh
    exact hstmt ob

theorem part1_extends (tcx : Tcx) (ld : List Ty) (ac sp : Nat)
    (blocks : List BasicBlockData) :
    StructurallyExtends blocks (part1 tcx ld ac sp blocks) := by
  simp only [part1]
  exact structurallyExtends_modifyIdx _ blocks 0 (fun bb => rfl)
    (fun bb => List.sublist_append_right _ _)

theorem applyReturns_extends (rs : List (Nat × Place × Nat))
    (blocks : List BasicBlockData) :
    StructurallyExtends blocks (applyReturns rs blocks) := by
  induction rs generalizing blocks with
  | nil => exact structurallyExtends_rfl blocks
  | cons r rs ih =>
    obtain ⟨ri, rp, rb⟩ := r
    rw [applyReturns_cons]
    exact structurallyExtends_trans
      (structurallyExtends_modifyIdx
        (fun bb =>
          BasicBlockData.mk
            (Statement.mk ri (StatementKind.retag RetagKind.default rp)
              :: bb.statements)
            bb.terminator)
        blocks rb (fun bb => rfl)
        (fun bb => List.sublist_cons_self _ _))
      (ih _)

theorem sublist_part3Spec (tcx : Tcx) (ld : List Ty)
    (stmts : List Statement) :
    stmts.Sublist (part3Spec tcx ld stmts) := by
  induction stmts with
  | nil => exact List.Sublist.refl _
  | cons s rest ih =>
    exact List.Sublist.cons₂ s (ih.trans (List.sublist_append_right _ _))

theorem part3_extends (tcx : Tcx) (ld : List Ty)
    (blocks : List BasicBlockData) :
    StructurallyExtends blocks (part3 tcx ld blocks) := by
  refine structurallyExtends_map _ blocks (fun bb => rfl) ?_
  intro bb
  show bb.statements.Sublist (part3Stmts tcx ld bb.statements)
  rw [part3Stmts_eq_spec]
  exact sublist_part3Spec tcx ld bb.statements

/-- C8: over the whole enabled run (the three phases, the external
normalization collaborator excluded) the pass keeps the local
declarations, argument count and span, keeps the number of blocks and
each block's terminator, and only grows each block's statement list,
preserving the relative order of all pre-existing statements. -/
theorem run_phases_structural_preservation (tcx : Tcx) (body : Body) :
    (run_phases tcx body).local_decls = body.local_decls ∧
    (run_phases tcx body).arg_count = body.arg_count ∧
    (run_phases tcx body).span = body.span ∧
    StructurallyExtends body.basic_blocks (run_phases tcx body).basic_blocks := by
  refine ⟨rfl, rfl, rfl, ?_⟩
  exact structurallyExtends_trans
    (part1_extends tcx body.local_decls body.arg_count body.span
      body.basic_blocks)
    (structurallyExtends_trans
      (applyReturns_extends _ _)
      (part3_extends tcx body.local_decls _))

/-- C8 witness: on a concrete body, the enabled phases keep the local
declarations and the block count. -/
theorem run_phases_structural_preservation_witness :
    (run_phases tcxEx bodyEx).local_decls = bodyEx.local_decls ∧
    bodyEx.basic_blocks.length =
      (run_phases tcxEx bodyEx).basic_blocks.length :=
  ⟨(run_phases_structural_preservation tcxEx bodyEx).1,
    (run_phases_structural_preservation tcxEx bodyEx).2.2.2.1⟩

end MirRetag
